import Mathlib

/-!
Shallow embedding of the fee-collector sync engine and its read-side
query service.  Every definition mirrors one function of the TypeScript
source (`sync.service.ts`, `parsing.service.ts`, `lock.service.ts`,
`fee.service.ts`); JavaScript numbers are modelled as `Int`, uint256 fee
amounts as `Nat`, JS `Map` lookups as association lists, and fallible
code as `Except String`.
-/

deriving instance DecidableEq for Except

namespace FeeCollector

/-- `SyncConfig` from `sync.service.ts`. -/
structure SyncConfig where
  chainId : Int
  startBlock : Int
  confirmations : Int
  batchSize : Int
  reorgBacktrack : Int
  batchDelayMs : Int
deriving Repr, DecidableEq

/-- Block metadata returned by the chain client (`ethers.providers.Block`,
restricted to the fields the engine reads). -/
structure Block where
  number : Int
  hash : String
  timestamp : Int
deriving Repr, DecidableEq

/-- A raw `ethers.Event` for `FeesCollected`, with the decoded log args
(`parseLog(event).args = [token, integrator, integratorFee, lifiFee]`)
inlined; the fee amounts are uint256 values, modelled as `Nat`. -/
structure RawEvent where
  blockNumber : Int
  blockHash : String
  transactionHash : String
  logIndex : Int
  token : String
  integrator : String
  integratorFee : Nat
  lifiFee : Nat
deriving Repr, DecidableEq

/-- `ParsedFeeCollectedEvent` from `parsing.service.ts` (the shape stored
in the `fee_collected_events` collection, minus `createdAt`). -/
structure ParsedFeeCollectedEvent where
  chainId : Int
  blockNumber : Int
  blockHash : String
  txHash : String
  logIndex : Int
  token : String
  integrator : String
  integratorFee : String
  lifiFee : String
  blockTimestamp : Int
deriving Repr, DecidableEq

/-- JS `Map<number, number>.get`: first-match lookup in an association
list (a real `Map` has unique keys, so first-match is exact). -/
def lookupTimestamp (m : List (Int × Int)) (bn : Int) : Option Int :=
  (m.find? (fun p => p.1 == bn)).map (fun p => p.2)

/-- The JS guard `if (!timestamp) throw ...` fires when the map lookup
returns `undefined` *or* the number `0` (both falsy). -/
def missingTs (m : List (Int × Int)) (bn : Int) : Bool :=
  match lookupTimestamp m bn with
  | none => true
  | some t => t == 0

/-- JS `String.prototype.toLowerCase` (ASCII case fold over the
characters; written on the character list so it reduces in the
kernel). -/
def strToLower (s : String) : String := String.mk (s.data.map Char.toLower)

/-- Error message thrown by `parseFeeCollectedEvents`. -/
def missingTsMsg (bn : Int) : String :=
  "Missing block timestamp for block " ++ toString bn

/-- The body of the `events.map` callback in `parseFeeCollectedEvents`. -/
def parseOne (chainId : Int) (blockTimestamps : List (Int × Int)) (event : RawEvent) :
    Except String ParsedFeeCollectedEvent :=
  match lookupTimestamp blockTimestamps event.blockNumber with
  | none => .error (missingTsMsg event.blockNumber)
  | some t =>
    if t = 0 then .error (missingTsMsg event.blockNumber)
    else .ok {
      chainId := chainId
      blockNumber := event.blockNumber
      blockHash := event.blockHash
      txHash := event.transactionHash
      logIndex := event.logIndex
      token := strToLower event.token
      integrator := strToLower event.integrator
      integratorFee := toString event.integratorFee
      lifiFee := toString event.lifiFee
      blockTimestamp := t }

/-- `parseFeeCollectedEvents` from `parsing.service.ts`: `events.map`
with a thrown error modelled as `Except.error`; the first failing
element aborts the whole map, as a JS throw does. -/
def parseFeeCollectedEvents (events : List RawEvent) (chainId : Int)
    (blockTimestamps : List (Int × Int)) : Except String (List ParsedFeeCollectedEvent) :=
  match events with
  | [] => .ok []
  | e :: rest =>
    match parseOne chainId blockTimestamps e with
    | .error msg => .error msg
    | .ok p =>
      match parseFeeCollectedEvents rest chainId blockTimestamps with
      | .error msg => .error msg
      | .ok ps => .ok (p :: ps)

/-- The `(chainId, txHash, logIndex)` key of the unique index on
`fee_collected_events`. -/
def eventKey (e : ParsedFeeCollectedEvent) : Int × String × Int :=
  (e.chainId, e.txHash, e.logIndex)

/-- One `updateOne { filter, $setOnInsert, upsert: true }` op of the
`bulkWrite` in `persistEvents`: insert-if-absent on the event key. -/
def insertIfAbsent (store : List ParsedFeeCollectedEvent) (e : ParsedFeeCollectedEvent) :
    List ParsedFeeCollectedEvent :=
  if store.any (fun s => eventKey s == eventKey e) then store else store ++ [e]

/-- `persistEvents` from `sync.service.ts`: the bulk of conditional
upserts applied in order to the event store. -/
def persistEvents (store : List ParsedFeeCollectedEvent)
    (events : List ParsedFeeCollectedEvent) : List ParsedFeeCollectedEvent :=
  events.foldl insertIfAbsent store

/-- The `FeeCollectorClient` interface, as a deterministic oracle:
`getBlockNumber`, `getBlock` and `queryFeesCollected`. -/
structure ClientModel where
  latestBlockNumber : Int
  blocks : Int → Option Block
  logsInRange : Int → Int → List RawEvent

/-- One document of the `chain_sync_states` collection (unique on
`chainId`): the per-chain checkpoint. -/
structure SyncStateRow where
  chainId : Int
  lastProcessedBlock : Int
  lastProcessedBlockHash : String
deriving Repr, DecidableEq

/-- The durable store the engine mutates: sync checkpoints and events. -/
structure DB where
  syncStates : List SyncStateRow
  events : List ParsedFeeCollectedEvent
deriving Repr, DecidableEq

/-- `loadSyncState`: `findOne({chainId})`, defaulting to
`(startBlock - 1, null)` when no row exists.  The in-memory hash is
`Option String`: `none` models JS `null`. -/
def loadSyncState (db : DB) (chainId startBlock : Int) : Int × Option String :=
  match db.syncStates.find? (fun s => s.chainId == chainId) with
  | some s => (s.lastProcessedBlock, some s.lastProcessedBlockHash)
  | none => (startBlock - 1, none)

/-- JS string/null falsiness of `state.lastProcessedBlockHash`:
`null` or the empty string. -/
def hashFalsy : Option String → Bool
  | none => true
  | some h => h == ""

/-- `detectReorg`: skip when the stored hash is falsy; otherwise fetch
the current block and compare hashes; a missing block is a fatal
error. -/
def detectReorg (client : ClientModel) (lastProcessedBlock : Int)
    (lastProcessedBlockHash : Option String) : Except String Bool :=
  if hashFalsy lastProcessedBlockHash then .ok false
  else
    match client.blocks lastProcessedBlock with
    | none => .error ("Block " ++ toString lastProcessedBlock ++
        " not found on chain — possible RPC misconfiguration")
    | some block => .ok (decide (some block.hash ≠ lastProcessedBlockHash))

/-- `updateOne({chainId}, {$set: ...})` without upsert on the sync-state
collection: rewrite the first row matching `chainId`, no-op if none. -/
def setSyncState : List SyncStateRow → Int → Int → String → List SyncStateRow
  | [], _, _, _ => []
  | s :: rest, chainId, lp, h =>
    if s.chainId = chainId then
      { chainId := s.chainId, lastProcessedBlock := lp, lastProcessedBlockHash := h } :: rest
    else s :: setSyncState rest chainId lp h

/-- `updateOne({chainId}, {$set: ...}, {upsert: true})`: rewrite the
first matching row, or append a fresh one when none matches. -/
def upsertSyncState (states : List SyncStateRow) (chainId lp : Int) (h : String) :
    List SyncStateRow :=
  if states.any (fun s => s.chainId == chainId) then setSyncState states chainId lp h
  else states ++ [{ chainId := chainId, lastProcessedBlock := lp, lastProcessedBlockHash := h }]

/-- `deleteOne({chainId})`: remove the first row matching `chainId`. -/
def deleteSyncState (states : List SyncStateRow) (chainId : Int) : List SyncStateRow :=
  states.eraseP (fun s => s.chainId == chainId)

/-- `handleReorg` from `sync.service.ts`: compute the rollback target,
`deleteMany` the chain's events above it, then either delete the
checkpoint row (target below `startBlock`) or `$set` it to
`(rollbackTo, "")`.  Returns `rollbackTo` and the mutated store. -/
def handleReorg (chainId lastProcessedBlock : Int) (config : SyncConfig) (db : DB) :
    Int × DB :=
  let rollbackTo := max (config.startBlock - 1) (lastProcessedBlock - config.reorgBacktrack)
  let events := db.events.filter
    (fun e => !(e.chainId == chainId && decide (rollbackTo < e.blockNumber)))
  let syncStates :=
    if rollbackTo < config.startBlock then deleteSyncState db.syncStates chainId
    else setSyncState db.syncStates chainId rollbackTo ""
  (rollbackTo, { syncStates := syncStates, events := events })

/-- `fetchBlockTimestamps`, after deduplication: `getBlock` each number
in order, failing at the first miss, and build the
`blockNumber → timestamp` map. -/
def fetchTimestampsGo (client : ClientModel) : List Int → Except String (List (Int × Int))
  | [] => .ok []
  | bn :: rest =>
    match client.blocks bn with
    | none => .error "Block not found on chain — possible RPC misconfiguration"
    | some b =>
      match fetchTimestampsGo client rest with
      | .error msg => .error msg
      | .ok m => .ok ((b.number, b.timestamp) :: m)

/-- `fetchBlockTimestamps` from `sync.service.ts`: `[...new Set(ns)]`
keeps first occurrences (`List.eraseDups`), then one lookup each. -/
def fetchBlockTimestamps (client : ClientModel) (blockNumbers : List Int) :
    Except String (List (Int × Int)) :=
  fetchTimestampsGo client blockNumbers.eraseDups

/-- `computeBatchRange` from `sync.service.ts`. -/
def computeBatchRange (fromBlock safeBlock batchSize : Int) : Option (Int × Int) :=
  let f := fromBlock + 1
  if f > safeBlock then none
  else some (f, min (f + batchSize - 1) safeBlock)

/-- One iteration body of the batch loop in `sync` (steps a–d for the
range `batch`): query logs, parse and persist when any, checkpoint to
`batch.to` with that block's hash.  Fails exactly where the source
throws. -/
def syncBatchStep (client : ClientModel) (config : SyncConfig) (batch : Int × Int)
    (db : DB) : Except String DB :=
  let rawEvents := client.logsInRange batch.1 batch.2
  let persisted : Except String DB :=
    if rawEvents.length > 0 then
      match fetchBlockTimestamps client (rawEvents.map (fun e => e.blockNumber)) with
      | .error msg => .error msg
      | .ok blockTimestamps =>
        match parseFeeCollectedEvents rawEvents config.chainId blockTimestamps with
        | .error msg => .error msg
        | .ok parsedEvents =>
          .ok { db with events := persistEvents db.events parsedEvents }
    else .ok db
  match persisted with
  | .error msg => .error msg
  | .ok db1 =>
    match client.blocks batch.2 with
    | none => .error ("Block " ++ toString batch.2 ++
        " not found on chain — possible RPC misconfiguration")
    | some endBlock =>
      .ok { db1 with
        syncStates := upsertSyncState db1.syncStates config.chainId batch.2 endBlock.hash }

/-- The `while (range)` loop of `sync`, fuelled (each iteration advances
`lastProcessedBlock` by at least one when `batchSize ≥ 1`, so
`(safeBlock - lastProcessedBlock).toNat` iterations always suffice).
Returns the final store and the list of `queryFeesCollected` ranges
issued, in order. -/
def syncLoopGo (client : ClientModel) (config : SyncConfig) (safeBlock : Int) :
    Nat → Int → DB → List (Int × Int) → Except String (DB × List (Int × Int))
  | 0, lp, db, queries =>
    match computeBatchRange lp safeBlock config.batchSize with
    | none => .ok (db, queries)
    | some _ => .error "batch loop did not terminate"
  | fuel + 1, lp, db, queries =>
    match computeBatchRange lp safeBlock config.batchSize with
    | none => .ok (db, queries)
    | some batch =>
      match syncBatchStep client config batch db with
      | .error msg => .error msg
      | .ok db1 => syncLoopGo client config safeBlock fuel batch.2 db1 (queries ++ [batch])

/-- `sync` from `sync.service.ts`, one full cycle with no abort signal:
safe-block computation, state load, reorg detection/rollback, batch
loop.  The result carries the mutated store and every
`queryFeesCollected` call made. -/
def syncCycle (client : ClientModel) (config : SyncConfig) (db : DB) :
    Except String (DB × List (Int × Int)) :=
  let safeBlock := client.latestBlockNumber - config.confirmations
  let st := loadSyncState db config.chainId config.startBlock
  match detectReorg client st.1 st.2 with
  | .error msg => .error msg
  | .ok isReorg =>
    let start : Int × DB :=
      if isReorg then
        let r := handleReorg config.chainId st.1 config db
        (r.1, r.2)
      else (st.1, db)
    syncLoopGo client config safeBlock (safeBlock - start.1).toNat start.1 start.2 []

/-- The standalone batch-range sequence: repeatedly take
`computeBatchRange` and advance to its `to`, as the `while` loop does. -/
def batchRangesGo (safeBlock batchSize : Int) : Nat → Int → List (Int × Int)
  | 0, _ => []
  | fuel + 1, lp =>
    match computeBatchRange lp safeBlock batchSize with
    | none => []
    | some batch => batch :: batchRangesGo safeBlock batchSize fuel batch.2

/-- The full sequence of ranges the batch loop scans starting from
`lastProcessedBlock` (fuelled like `syncLoopGo`). -/
def batchRanges (lastProcessedBlock safeBlock batchSize : Int) : List (Int × Int) :=
  batchRangesGo safeBlock batchSize (safeBlock - lastProcessedBlock).toNat lastProcessedBlock

/-- Default `maxAttempts` of `withRetry`. -/
def defaultMaxAttempts : Nat := 3

/-- Default `initialDelayMs` of `withRetry`. -/
def defaultInitialDelayMs : Nat := 5000

/-- The `for (attempt = 1; attempt <= maxAttempts; attempt++)` loop of
`withRetry`.  `op k` is the outcome of the k-th invocation of `fn`.
Returns the value or final thrown error (`.error none` is the JS
`throw lastError` with no attempt ever made, i.e. `undefined`), the
number of invocations made, and the sleeps performed between attempts,
in order. -/
def withRetryGo (op : Nat → Except E A) (maxAttempts initialDelayMs : Nat) :
    Nat → Option E → List Nat → Except (Option E) A × Nat × List Nat
  | attempt, lastError, delays =>
    if h : attempt ≤ maxAttempts then
      match op attempt with
      | .ok v => (.ok v, attempt, delays)
      | .error err =>
        if attempt < maxAttempts then
          withRetryGo op maxAttempts initialDelayMs (attempt + 1) (some err)
            (delays ++ [initialDelayMs * 2 ^ (attempt - 1)])
        else (.error (some err), attempt, delays)
    else (.error lastError, attempt - 1, delays)
termination_by attempt _ _ => maxAttempts + 1 - attempt
decreasing_by omega

/-- `withRetry` from `sync.service.ts` over a deterministic per-attempt
outcome function. -/
def withRetry (op : Nat → Except E A) (maxAttempts initialDelayMs : Nat) :
    Except (Option E) A × Nat × List Nat :=
  withRetryGo op maxAttempts initialDelayMs 1 none []

/-- One document of the `chain_worker_locks` collection; times are unix
milliseconds. -/
structure LockRow where
  chainId : Int
  ownerId : String
  expiresAt : Int
deriving Repr, DecidableEq

/-- The lock collection, through its unique index on `chainId`: at most
one row per chain. -/
def LockStore : Type := Int → Option LockRow

/-- `acquireChainLock` from `lock.service.ts`: `create` succeeds when no
row exists for the chain (else E11000); on the duplicate-key path,
`updateOne({chainId, $or: [{ownerId}, {expiresAt: {$lte: now}}]}, $set)`
takes the lock over exactly when the filter matches.  `now` is the
`new Date()` captured at entry. -/
def acquireChainLock (store : LockStore) (chainId : Int) (ownerId : String)
    (ttlMs now : Int) : Bool × LockStore :=
  let expiresAt := now + ttlMs
  match store chainId with
  | none =>
    (true, fun c => if c = chainId then some ⟨chainId, ownerId, expiresAt⟩ else store c)
  | some row =>
    if row.ownerId = ownerId ∨ row.expiresAt ≤ now then
      (true, fun c => if c = chainId then some ⟨row.chainId, ownerId, expiresAt⟩ else store c)
    else (false, store)

/-- `FeesCursor` from `fee.repository.ts`. -/
structure FeesCursor where
  blockNumber : Int
  logIndex : Int
  id : String
deriving Repr, DecidableEq

/-- `FeeEventRow`: a stored event as the repository returns it, with the
stringified Mongo `_id`. -/
structure FeeEventRow where
  id : String
  chainId : Int
  blockNumber : Int
  blockHash : String
  txHash : String
  logIndex : Int
  token : String
  integrator : String
  integratorFee : String
  lifiFee : String
  blockTimestamp : Int
deriving Repr, DecidableEq

/-- `FeeEvent` as returned to API consumers (`mapRowsToEvents` strips
the `id`). -/
structure FeeEvent where
  chainId : Int
  blockNumber : Int
  blockHash : String
  txHash : String
  logIndex : Int
  token : String
  integrator : String
  integratorFee : String
  lifiFee : String
  blockTimestamp : Int
deriving Repr, DecidableEq

/-- `FindByIntegratorOptions`: the argument of
`FeeRepository.findByIntegrator`. -/
structure FindByIntegratorOptions where
  integrator : String
  chainId : Option Int
  cursor : Option FeesCursor
  limit : Int
deriving Repr, DecidableEq

/-- `FeeServiceError` (statusCode, code, message). -/
structure FeeServiceError where
  statusCode : Nat
  code : String
  message : String
deriving Repr, DecidableEq

/-- `FeeEventList`: the page plus the opaque next-page cursor. -/
structure FeeEventList where
  data : List FeeEvent
  cursor : Option String
deriving Repr, DecidableEq

/-- A JSON value, the result of `JSON.parse`; numbers are rationals so
that `z.number().int()` is the denominator-one check. -/
inductive Json where
  | null : Json
  | bool (b : Bool) : Json
  | num (q : Rat) : Json
  | str (s : String) : Json
  | arr (elems : List Json) : Json
  | obj (fields : List (String × Json)) : Json

/-- Field access on a parsed JSON object (keys are unique after
`JSON.parse`, so first-match lookup is exact). -/
def getField (fields : List (String × Json)) (key : String) : Option Json :=
  (fields.find? (fun p => p.1 == key)).map (fun p => p.2)

/-- One hexadecimal digit, as in the character class of
`OBJECT_ID_PATTERN`. -/
def isHexDigit (c : Char) : Bool :=
  c.isDigit || ("a" ≤ c.toString && c.toString ≤ "f") || ("A" ≤ c.toString && c.toString ≤ "F")

/-- `OBJECT_ID_PATTERN`: exactly 24 hex characters. -/
def isObjectIdHex (s : String) : Bool :=
  s.length == 24 && s.toList.all isHexDigit

/-- `cursorSchema.safeParse` from `fee.service.ts`: an object with
integer `blockNumber`, integer `logIndex` and a 24-hex-char `id`
(extra keys allowed, as zod objects strip unknown keys). -/
def validateCursor (j : Json) : Option FeesCursor :=
  match j with
  | .obj fields =>
    match getField fields "blockNumber", getField fields "logIndex", getField fields "id" with
    | some (.num b), some (.num l), some (.str s) =>
      if b.den = 1 ∧ l.den = 1 ∧ isObjectIdHex s = true then
        some { blockNumber := b.num, logIndex := l.num, id := s }
      else none
    | _, _, _ => none
  | _ => none

/-- `decodeCursor` from `fee.service.ts`, parameterised by `parse`, the
base64-decode-then-`JSON.parse` step (`none` models its throw, caught
by the surrounding `try`); schema validation is concrete. -/
def decodeCursor (parse : String → Option Json) (cursor : String) : Option FeesCursor :=
  (parse cursor).bind validateCursor

/-- `MAX_LIMIT` from `fee.service.ts`. -/
def MAX_LIMIT : Int := 200

/-- `DEFAULT_LIMIT` from `fee.service.ts`. -/
def DEFAULT_LIMIT : Int := 50

/-- `mapRowsToEvents` from `fee.service.ts`. -/
def mapRowsToEvents (rows : List FeeEventRow) : List FeeEvent :=
  rows.map (fun row => {
    chainId := row.chainId
    blockNumber := row.blockNumber
    blockHash := row.blockHash
    txHash := row.txHash
    logIndex := row.logIndex
    token := row.token
    integrator := row.integrator
    integratorFee := row.integratorFee
    lifiFee := row.lifiFee
    blockTimestamp := row.blockTimestamp })

/-- `FeeService.findByIntegrator`, parameterised by the repository (a
pure function) and by `parse`/`encode` for the base64+JSON codec.  The
second component records every repository invocation, in order.
`if (cursor)` is JS-falsy: `none` or the empty string skip decoding. -/
def findByIntegrator (repo : FindByIntegratorOptions → List FeeEventRow)
    (parse : String → Option Json) (encode : FeesCursor → String)
    (integrator : String) (chainId : Option Int) (cursor : Option String) (limit : Int) :
    Except FeeServiceError FeeEventList × List FindByIntegratorOptions :=
  let safeLimit := min (max 1 limit) MAX_LIMIT
  let decoded : Except FeeServiceError (Option FeesCursor) :=
    match cursor with
    | none => .ok none
    | some c =>
      if c = "" then .ok none
      else
        match decodeCursor parse c with
        | none => .error { statusCode := 400, code := "INVALID_CURSOR", message := "Invalid cursor" }
        | some dc => .ok (some dc)
  match decoded with
  | .error e => (.error e, [])
  | .ok decodedCursor =>
    let options : FindByIntegratorOptions :=
      { integrator := integrator, chainId := chainId, cursor := decodedCursor, limit := safeLimit }
    let rows := repo options
    let hasNextPage := decide (safeLimit < (rows.length : Int))
    let pageRows := if hasNextPage then rows.take safeLimit.toNat else rows
    let data := mapRowsToEvents pageRows
    let nextCursor : Option String :=
      match hasNextPage, pageRows.getLast? with
      | true, some lastRow =>
        some (encode { blockNumber := lastRow.blockNumber, logIndex := lastRow.logIndex,
                       id := lastRow.id })
      | _, _ => none
    (.ok { data := data, cursor := nextCursor }, [options])

/-- `findByIntegrator` with the omitted `limit` argument: the declared
default is `DEFAULT_LIMIT`. -/
def findByIntegratorDefault (repo : FindByIntegratorOptions → List FeeEventRow)
    (parse : String → Option Json) (encode : FeesCursor → String)
    (integrator : String) (chainId : Option Int) (cursor : Option String) :
    Except FeeServiceError FeeEventList × List FindByIntegratorOptions :=
  findByIntegrator repo parse encode integrator chainId cursor DEFAULT_LIMIT

/-! ### Fixtures and store invariants used by the theorems -/

/-- Sync config of the repository's unit tests, with `batchSize := 5`. -/
def batchConfig : SyncConfig :=
  { chainId := 137, startBlock := 100, confirmations := 5, batchSize := 5,
    reorgBacktrack := 10, batchDelayMs := 0 }

/-- A chain at height 115 with no events and constant block hashes. -/
def batchClient : ClientModel :=
  { latestBlockNumber := 115
    blocks := fun n => some { number := n, hash := "0xh", timestamp := 1700000000 }
    logsInRange := fun _ _ => [] }

/-- An empty store. -/
def emptyDB : DB := { syncStates := [], events := [] }

/-- Raw event sample at block 100. -/
def sampleRaw : RawEvent :=
  { blockNumber := 100, blockHash := "0xb100", transactionHash := "0xtx", logIndex := 1,
    token := "0xTOK", integrator := "0xINT", integratorFee := 10, lifiFee := 2 }

/-- Normalization of `sampleRaw` under timestamp 1700000000. -/
def sampleParsed : ParsedFeeCollectedEvent :=
  { chainId := 137, blockNumber := 100, blockHash := "0xb100", txHash := "0xtx",
    logIndex := 1, token := "0xtok", integrator := "0xint", integratorFee := "10",
    lifiFee := "2", blockTimestamp := 1700000000 }

/-- The Mongo unique index on `chain_sync_states.chainId`: no two rows
share a chain id. -/
def syncStatesWF (states : List SyncStateRow) : Prop :=
  states.Pairwise (fun a b => a.chainId ≠ b.chainId)

/-- Sync config of the reorg scenario: `startBlock = 100`,
`reorgBacktrack = 10`. -/
def reorgConfig : SyncConfig :=
  { chainId := 137, startBlock := 100, confirmations := 5, batchSize := 10,
    reorgBacktrack := 10, batchDelayMs := 0 }

/-- Store with checkpoint `{137, 150, "0xold"}` and two events. -/
def reorgDb : DB :=
  { syncStates := [{ chainId := 137, lastProcessedBlock := 150,
                     lastProcessedBlockHash := "0xold" }]
    events := [{ sampleParsed with blockNumber := 141 },
               { sampleParsed with blockNumber := 140, txHash := "0xtx2" }] }

/-- Chain at height 155 whose every block now hashes to `"0xnew"`,
so the stored `"0xold"` hash of block 150 signals a reorg. -/
def reorgClient : ClientModel :=
  { latestBlockNumber := 155
    blocks := fun n => some { number := n, hash := "0xnew", timestamp := 1700000000 }
    logsInRange := fun _ _ => [] }

/-- The `chain_worker_locks` unique index on `chainId`: a stored row is
keyed by its own chain id. -/
def lockStoreWF (store : LockStore) : Prop :=
  ∀ c r, store c = some r → r.chainId = c

/-- A lock store holding chain 137 for `"workerA"` until time 1000. -/
def lockStoreSample : LockStore :=
  fun c => if c = 137 then
    some { chainId := 137, ownerId := "workerA", expiresAt := 1000 } else none

/-! ### Sample fixtures used by concrete parts of the theorems -/

/-! ### Helper lemmas -/

theorem any_insertIfAbsent (store : List ParsedFeeCollectedEvent)
    (e : ParsedFeeCollectedEvent) (p : ParsedFeeCollectedEvent → Bool)
    (h : store.any p = true) : (insertIfAbsent store e).any p = true := by
  unfold insertIfAbsent
  split
  · exact h
  · simp only [List.any_append, h, Bool.true_or]

theorem any_persistEvents (es : List ParsedFeeCollectedEvent) :
    ∀ (store : List ParsedFeeCollectedEvent) (p : ParsedFeeCollectedEvent → Bool),
      store.any p = true → (persistEvents store es).any p = true := by
  induction es with
  | nil => intro store p h; exact h
  | cons e rest ih =>
    intro store p h
    exact ih (insertIfAbsent store e) p (any_insertIfAbsent store e p h)

theorem insertIfAbsent_has_key (store : List ParsedFeeCollectedEvent)
    (e : ParsedFeeCollectedEvent) :
    (insertIfAbsent store e).any (fun s => eventKey s == eventKey e) = true := by
  unfold insertIfAbsent
  split
  · assumption
  · simp

theorem persistEvents_has_keys (es : List ParsedFeeCollectedEvent) :
    ∀ (store : List ParsedFeeCollectedEvent) (e : ParsedFeeCollectedEvent), e ∈ es →
      (persistEvents store es).any (fun s => eventKey s == eventKey e) = true := by
  induction es with
  | nil => intro _ _ h; cases h
  | cons a rest ih =>
    intro store e he
    rcases List.mem_cons.mp he with rfl | hmem
    · exact any_persistEvents rest (insertIfAbsent store e) _ (insertIfAbsent_has_key store e)
    · exact ih (insertIfAbsent store a) e hmem

theorem persistEvents_noop (es : List ParsedFeeCollectedEvent) :
    ∀ (store : List ParsedFeeCollectedEvent),
      (∀ e ∈ es, store.any (fun s => eventKey s == eventKey e) = true) →
      persistEvents store es = store := by
  induction es with
  | nil => intro store _; rfl
  | cons a rest ih =>
    intro store h
    have ha : insertIfAbsent store a = store := by
      unfold insertIfAbsent
      simp only [h a (List.mem_cons_self a rest), if_true]
    show persistEvents (insertIfAbsent store a) rest = store
    rw [ha]
    exact ih store (fun e he => h e (List.mem_cons_of_mem a he))

/-- **C2**: persisting the same batch of normalized events twice yields
exactly the same stored event list (hence the same event set and count)
as persisting it once — re-insertion of an existing
`(chainId, txHash, logIndex)` key is a no-op, never a duplicate row. -/
theorem persistEvents_idempotent (store : List ParsedFeeCollectedEvent)
    (events : List ParsedFeeCollectedEvent) :
    persistEvents (persistEvents store events) events = persistEvents store events ∧
    (persistEvents (persistEvents store events) events).length =
      (persistEvents store events).length := by
  have h : persistEvents (persistEvents store events) events = persistEvents store events :=
    persistEvents_noop events (persistEvents store events)
      (fun e he => persistEvents_has_keys events store e he)
  exact ⟨h, by rw [h]⟩

theorem batchRangesGo_none (safeBlock batchSize lp : Int) (fuel : Nat)
    (h : computeBatchRange lp safeBlock batchSize = none) :
    batchRangesGo safeBlock batchSize fuel lp = [] := by
  cases fuel with
  | zero => rfl
  | succ n => simp only [batchRangesGo, h]

theorem computeBatchRange_some (lp safeBlock batchSize : Int) (b : Int × Int)
    (h : computeBatchRange lp safeBlock batchSize = some b) :
    lp + 1 ≤ safeBlock ∧ b = (lp + 1, min (lp + batchSize) safeBlock) := by
  unfold computeBatchRange at h
  by_cases hgt : lp + 1 > safeBlock
  · simp [hgt] at h
  · simp only [hgt, if_false] at h
    cases h
    refine ⟨by omega, ?_⟩
    have harith : lp + 1 + batchSize - 1 = lp + batchSize := by omega
    rw [harith]

theorem batchRangesGo_fuel (safeBlock batchSize : Int) (hbs : 1 ≤ batchSize) :
    ∀ (fuel1 fuel2 : Nat) (lp : Int),
      (safeBlock - lp).toNat ≤ fuel1 → (safeBlock - lp).toNat ≤ fuel2 →
      batchRangesGo safeBlock batchSize fuel1 lp = batchRangesGo safeBlock batchSize fuel2 lp := by
  intro fuel1
  induction fuel1 with
  | zero =>
    intro fuel2 lp h1 _
    have hnone : computeBatchRange lp safeBlock batchSize = none := by
      unfold computeBatchRange
      have : safeBlock ≤ lp := by omega
      simp only [if_pos (by omega : lp + 1 > safeBlock)]
    rw [batchRangesGo_none _ _ _ _ hnone, batchRangesGo_none _ _ _ _ hnone]
  | succ n ih =>
    intro fuel2 lp h1 h2
    cases hr : computeBatchRange lp safeBlock batchSize with
    | none => rw [batchRangesGo_none _ _ _ _ hr, batchRangesGo_none _ _ _ _ hr]
    | some b =>
      obtain ⟨hle, hb⟩ := computeBatchRange_some lp safeBlock batchSize b hr
      have hfuel2 : ∃ m, fuel2 = m + 1 := by
        refine ⟨fuel2 - 1, ?_⟩
        omega
      obtain ⟨m, rfl⟩ := hfuel2
      simp only [batchRangesGo, hr]
      have hadv : lp + 1 ≤ b.2 ∧ b.2 ≤ safeBlock := by
        rw [hb]; constructor <;> simp <;> omega
      have hrem : (safeBlock - b.2).toNat ≤ n ∧ (safeBlock - b.2).toNat ≤ m := by
        constructor <;> omega
      rw [ih m b.2 hrem.1 hrem.2]

/-- **C4**: the batch loop scans exactly the ranges produced by
repeatedly taking `from = lastProcessedBlock + 1`,
`to = min(from + batchSize - 1, safeBlock)` and advancing to `to`,
stopping when `from > safeBlock`; in particular the sequence for
`lastProcessedBlock = 99`, `safeBlock = 110`, `batchSize = 5` is exactly
`[100,104], [105,109], [110,110]`, and a full sync cycle over a chain at
height 115 with 5 confirmations issues exactly those three
`queryFeesCollected` calls. -/
theorem batch_partitioning (lp safeBlock batchSize : Int) (hbs : 1 ≤ batchSize) :
    (computeBatchRange lp safeBlock batchSize = none →
      batchRanges lp safeBlock batchSize = []) ∧
    (∀ b, computeBatchRange lp safeBlock batchSize = some b →
      batchRanges lp safeBlock batchSize = b :: batchRanges b.2 safeBlock batchSize) ∧
    batchRanges 99 110 5 = [(100, 104), (105, 109), (110, 110)] ∧
    syncCycle batchClient batchConfig emptyDB =
      .ok ({ syncStates := [{ chainId := 137, lastProcessedBlock := 110,
                              lastProcessedBlockHash := "0xh" }], events := [] },
           [(100, 104), (105, 109), (110, 110)]) := by
  refine ⟨?_, ?_, by decide, by rfl⟩
  · intro h
    exact batchRangesGo_none _ _ _ _ h
  · intro b hr
    obtain ⟨hle, hb⟩ := computeBatchRange_some lp safeBlock batchSize b hr
    unfold batchRanges
    have hpos : ∃ m, (safeBlock - lp).toNat = m + 1 := ⟨(safeBlock - lp).toNat - 1, by omega⟩
    obtain ⟨m, hm⟩ := hpos
    rw [hm]
    simp only [batchRangesGo, hr]
    congr 1
    have hadv : lp + 1 ≤ b.2 ∧ b.2 ≤ safeBlock := by
      rw [hb]; constructor <;> simp <;> omega
    exact batchRangesGo_fuel safeBlock batchSize hbs m (safeBlock - b.2).toNat b.2
      (by omega) (le_refl _)

/-- Witness for C4 at `lastProcessedBlock = 99`, `safeBlock = 110`,
`batchSize = 5`. -/
theorem batch_partitioning_witness :
    batchRanges 99 110 5 = [(100, 104), (105, 109), (110, 110)] :=
  (batch_partitioning 99 110 5 (by decide)).2.2.1

theorem parseOne_error_iff (cid : Int) (m : List (Int × Int)) (e : RawEvent) :
    (∃ msg, parseOne cid m e = .error msg) ↔ missingTs m e.blockNumber = true := by
  unfold parseOne missingTs
  cases h : lookupTimestamp m e.blockNumber with
  | none => simp
  | some t =>
    by_cases ht : t = 0
    · subst ht; simp
    · simp [ht]

theorem parseOne_error_msg (cid : Int) (m : List (Int × Int)) (e : RawEvent) (msg : String)
    (h : parseOne cid m e = .error msg) : msg = missingTsMsg e.blockNumber := by
  unfold parseOne at h
  cases hl : lookupTimestamp m e.blockNumber with
  | none => rw [hl] at h; cases h; rfl
  | some t =>
    rw [hl] at h
    by_cases ht : t = 0
    · subst ht; simp only [if_pos rfl] at h; cases h; rfl
    · simp only [if_neg ht] at h; cases h

theorem parseOne_ok_fields (cid : Int) (m : List (Int × Int)) (e : RawEvent)
    (p : ParsedFeeCollectedEvent) (h : parseOne cid m e = .ok p) :
    p.chainId = cid ∧ p.blockNumber = e.blockNumber ∧ p.blockHash = e.blockHash ∧
    p.txHash = e.transactionHash ∧ p.logIndex = e.logIndex ∧
    p.token = strToLower e.token ∧ p.integrator = strToLower e.integrator ∧
    p.integratorFee = toString e.integratorFee ∧ p.lifiFee = toString e.lifiFee ∧
    lookupTimestamp m e.blockNumber = some p.blockTimestamp := by
  unfold parseOne at h
  cases hl : lookupTimestamp m e.blockNumber with
  | none => rw [hl] at h; cases h
  | some t =>
    rw [hl] at h
    by_cases ht : t = 0
    · subst ht; simp only [if_pos rfl] at h; cases h
    · simp only [if_neg ht] at h
      cases h
      refine ⟨rfl, rfl, rfl, rfl, rfl, rfl, rfl, rfl, rfl, rfl⟩

theorem parse_error_iff (evts : List RawEvent) (cid : Int) (m : List (Int × Int)) :
    (∃ msg, parseFeeCollectedEvents evts cid m = .error msg) ↔
      ∃ e ∈ evts, missingTs m e.blockNumber = true := by
  induction evts with
  | nil => simp [parseFeeCollectedEvents]
  | cons e rest ih =>
    unfold parseFeeCollectedEvents
    cases hp : parseOne cid m e with
    | error msg =>
      simp only []
      constructor
      · intro _
        exact ⟨e, List.mem_cons_self e rest, (parseOne_error_iff cid m e).mp ⟨msg, hp⟩⟩
      · intro _; exact ⟨msg, rfl⟩
    | ok p =>
      have hne : missingTs m e.blockNumber = false := by
        by_contra hc
        have : missingTs m e.blockNumber = true := by
          cases hb : missingTs m e.blockNumber
          · exact absurd hb hc
          · rfl
        obtain ⟨msg, hmsg⟩ := (parseOne_error_iff cid m e).mpr this
        rw [hp] at hmsg; cases hmsg
      cases hr : parseFeeCollectedEvents rest cid m with
      | error msg2 =>
        simp only []
        constructor
        · intro _
          obtain ⟨e2, he2, hm2⟩ := ih.mp ⟨msg2, hr⟩
          exact ⟨e2, List.mem_cons_of_mem e he2, hm2⟩
        · intro _; exact ⟨msg2, rfl⟩
      | ok ps =>
        simp only []
        constructor
        · rintro ⟨msg, hmsg⟩; cases hmsg
        · rintro ⟨e2, he2, hm2⟩
          rcases List.mem_cons.mp he2 with rfl | hmem
          · rw [hne] at hm2; cases hm2
          · obtain ⟨msg, hmsg⟩ := ih.mpr ⟨e2, hmem, hm2⟩
            rw [hr] at hmsg; cases hmsg

theorem parse_error_msg (evts : List RawEvent) (cid : Int) (m : List (Int × Int))
    (msg : String) (h : parseFeeCollectedEvents evts cid m = .error msg) :
    ∃ e ∈ evts, missingTs m e.blockNumber = true ∧ msg = missingTsMsg e.blockNumber := by
  induction evts with
  | nil => cases h
  | cons e rest ih =>
    unfold parseFeeCollectedEvents at h
    cases hp : parseOne cid m e with
    | error msg0 =>
      rw [hp] at h
      cases h
      exact ⟨e, List.mem_cons_self e rest, (parseOne_error_iff cid m e).mp ⟨_, hp⟩,
        parseOne_error_msg cid m e _ hp⟩
    | ok p =>
      rw [hp] at h
      cases hr : parseFeeCollectedEvents rest cid m with
      | error msg2 =>
        rw [hr] at h
        cases h
        obtain ⟨e2, he2, hm2, hmsg2⟩ := ih hr
        exact ⟨e2, List.mem_cons_of_mem e he2, hm2, hmsg2⟩
      | ok ps => rw [hr] at h; cases h

theorem parse_ok_pointwise (evts : List RawEvent) (cid : Int) (m : List (Int × Int)) :
    ∀ (out : List ParsedFeeCollectedEvent), parseFeeCollectedEvents evts cid m = .ok out →
      out.length = evts.length ∧
      ∀ i, i < evts.length → ∃ e p, evts[i]? = some e ∧ out[i]? = some p ∧
        parseOne cid m e = .ok p := by
  induction evts with
  | nil =>
    intro out h
    cases h
    exact ⟨rfl, fun i hi => by simp at hi⟩
  | cons e rest ih =>
    intro out h
    unfold parseFeeCollectedEvents at h
    cases hp : parseOne cid m e with
    | error msg0 => rw [hp] at h; cases h
    | ok p =>
      rw [hp] at h
      cases hr : parseFeeCollectedEvents rest cid m with
      | error msg2 => rw [hr] at h; cases h
      | ok ps =>
        rw [hr] at h
        cases h
        obtain ⟨hlen, hpt⟩ := ih ps hr
        refine ⟨by simpa using hlen, ?_⟩
        intro i hi
        match i with
        | 0 => exact ⟨e, p, by simp, by simp, hp⟩
        | Nat.succ j =>
          obtain ⟨e2, p2, he2, hp2, hok⟩ := hpt j (by simpa using hi)
          exact ⟨e2, p2, by simpa using he2, by simpa using hp2, hok⟩

/-- **C6** (amended): the normalizer fails — always with the
"missing timestamp" error of some offending event — if and only if some
raw event's block-timestamp lookup is *falsy*: the block is absent from
the supplied map **or** is mapped to timestamp `0` (the JS guard
`if (!timestamp)` treats `0` as missing); when every referenced block
has a nonzero timestamp it returns the normalized events with
lowercased token and integrator addresses and fee amounts converted to
decimal strings. -/
theorem parse_missing_timestamp_characterization (evts : List RawEvent) (cid : Int)
    (m : List (Int × Int)) :
    ((∃ msg, parseFeeCollectedEvents evts cid m = .error msg) ↔
      ∃ e ∈ evts, missingTs m e.blockNumber = true) ∧
    (∀ msg, parseFeeCollectedEvents evts cid m = .error msg →
      ∃ e ∈ evts, missingTs m e.blockNumber = true ∧ msg = missingTsMsg e.blockNumber) ∧
    (∀ out, parseFeeCollectedEvents evts cid m = .ok out →
      ∀ i, i < evts.length → ∃ e p, evts[i]? = some e ∧ out[i]? = some p ∧
        p.token = strToLower e.token ∧ p.integrator = strToLower e.integrator ∧
        p.integratorFee = toString e.integratorFee ∧ p.lifiFee = toString e.lifiFee) := by
  refine ⟨parse_error_iff evts cid m, parse_error_msg evts cid m, ?_⟩
  intro out h i hi
  obtain ⟨e, p, he, hp, hok⟩ := (parse_ok_pointwise evts cid m out h).2 i hi
  obtain ⟨_, _, _, _, _, htok, hint, hfee, hlifi, _⟩ := parseOne_ok_fields cid m e p hok
  exact ⟨e, p, he, hp, htok, hint, hfee, hlifi⟩

/-- Witness for the amended C6 on a singleton batch whose block has a
nonzero timestamp. -/
theorem parse_missing_timestamp_characterization_witness :
    ∃ e p, [sampleRaw][0]? = some e ∧ [sampleParsed][0]? = some p ∧
      p.token = strToLower e.token ∧ p.integrator = strToLower e.integrator ∧
      p.integratorFee = toString e.integratorFee ∧ p.lifiFee = toString e.lifiFee :=
  (parse_missing_timestamp_characterization [sampleRaw] 137 [(100, 1700000000)]).2.2
    [sampleParsed] (by decide) 0 (by decide)

/-- Counterexample to C6 as stated: block 100 *is* present in the
supplied map (with timestamp `0`), yet the normalizer fails with the
missing-timestamp error. -/
theorem parse_missing_timestamp_counterexample :
    lookupTimestamp [(100, 0)] sampleRaw.blockNumber = some 0 ∧
    parseFeeCollectedEvents [sampleRaw] 137 [(100, 0)] = .error (missingTsMsg 100) := by
  constructor
  · decide
  · decide

/-- **C9**: when the normalizer succeeds, its output has exactly the
same length as the input and is in the same order — the i-th normalized
event is derived (by the map body) from the i-th raw event, carrying
its `blockNumber`, `blockHash`, `txHash` and `logIndex` unchanged. -/
theorem parse_preserves_length_order (evts : List RawEvent) (cid : Int)
    (m : List (Int × Int)) (out : List ParsedFeeCollectedEvent)
    (h : parseFeeCollectedEvents evts cid m = .ok out) :
    out.length = evts.length ∧
    ∀ i, i < evts.length → ∃ e p, evts[i]? = some e ∧ out[i]? = some p ∧
      parseOne cid m e = .ok p ∧ p.blockNumber = e.blockNumber ∧
      p.blockHash = e.blockHash ∧ p.txHash = e.transactionHash ∧
      p.logIndex = e.logIndex := by
  obtain ⟨hlen, hpt⟩ := parse_ok_pointwise evts cid m out h
  refine ⟨hlen, ?_⟩
  intro i hi
  obtain ⟨e, p, he, hp, hok⟩ := hpt i hi
  obtain ⟨_, hbn, hbh, htx, hli, _⟩ := parseOne_ok_fields cid m e p hok
  exact ⟨e, p, he, hp, hok, hbn, hbh, htx, hli⟩

/-- Witness for C9 on a singleton batch. -/
theorem parse_preserves_length_order_witness :
    parseFeeCollectedEvents [sampleRaw] 137 [(100, 1700000000)] = .ok [sampleParsed] ∧
    [sampleParsed].length = [sampleRaw].length :=
  ⟨by decide,
    (parse_preserves_length_order [sampleRaw] 137 [(100, 1700000000)] [sampleParsed]
      (by decide)).1⟩

theorem find_deleteSyncState_none (states : List SyncStateRow) (chainId : Int)
    (hwf : syncStatesWF states) :
    (deleteSyncState states chainId).find? (fun s => s.chainId == chainId) = none := by
  induction states with
  | nil => rfl
  | cons s rest ih =>
    unfold deleteSyncState at ih ⊢
    by_cases hs : s.chainId = chainId
    · rw [List.eraseP_cons_of_pos (by simp [hs])]
      rw [List.find?_eq_none]
      intro x hx
      have hne : x.chainId ≠ s.chainId := fun heq =>
        ((List.pairwise_cons.mp hwf).1 x hx) heq.symm
      simp only [beq_iff_eq]
      rw [hs] at hne
      exact hne
    · rw [List.eraseP_cons_of_neg (by simp [hs])]
      rw [List.find?_cons_of_neg _ (by simp [hs])]
      exact ih (List.pairwise_cons.mp hwf).2

theorem find_setSyncState (states : List SyncStateRow) (chainId lp : Int) (h : String)
    (row : SyncStateRow)
    (hrow : states.find? (fun s => s.chainId == chainId) = some row) :
    (setSyncState states chainId lp h).find? (fun s => s.chainId == chainId) =
      some { chainId := chainId, lastProcessedBlock := lp, lastProcessedBlockHash := h } := by
  induction states with
  | nil => cases hrow
  | cons s rest ih =>
    by_cases hs : s.chainId = chainId
    · unfold setSyncState
      rw [if_pos hs]
      rw [List.find?_cons_of_pos _ (by simp [hs])]
      simp [hs]
    · unfold setSyncState
      rw [if_neg hs]
      rw [List.find?_cons_of_neg _ (by simp [hs])]
      rw [List.find?_cons_of_neg _ (by simp [hs])] at hrow
      exact ih hrow

/-- **C1**: on a confirmed reorg over a stored checkpoint,
`handleReorg` returns
`rollbackTo = max(startBlock - 1, lastProcessedBlock - reorgBacktrack)`,
deletes exactly the chain's stored events with
`blockNumber > rollbackTo`, and then either removes the checkpoint row
entirely (when `rollbackTo < startBlock`) or rewrites it to
`{lastProcessedBlock := rollbackTo, lastProcessedBlockHash := ""}`. -/
theorem handleReorg_rollback (chainId lp : Int) (config : SyncConfig) (db : DB)
    (row : SyncStateRow) (hwf : syncStatesWF db.syncStates)
    (hrow : db.syncStates.find? (fun s => s.chainId == chainId) = some row) :
    (handleReorg chainId lp config db).1 =
        max (config.startBlock - 1) (lp - config.reorgBacktrack) ∧
    (∀ e, e ∈ (handleReorg chainId lp config db).2.events ↔
      (e ∈ db.events ∧ ¬(e.chainId = chainId ∧
        max (config.startBlock - 1) (lp - config.reorgBacktrack) < e.blockNumber))) ∧
    (max (config.startBlock - 1) (lp - config.reorgBacktrack) < config.startBlock →
      ((handleReorg chainId lp config db).2.syncStates.find?
        (fun s => s.chainId == chainId) = none)) ∧
    (config.startBlock ≤ max (config.startBlock - 1) (lp - config.reorgBacktrack) →
      ((handleReorg chainId lp config db).2.syncStates.find?
        (fun s => s.chainId == chainId) =
        some { chainId := chainId,
               lastProcessedBlock := max (config.startBlock - 1) (lp - config.reorgBacktrack),
               lastProcessedBlockHash := "" })) := by
  refine ⟨rfl, ?_, ?_, ?_⟩
  · intro e
    show e ∈ db.events.filter _ ↔ _
    rw [List.mem_filter]
    constructor
    · rintro ⟨hm, hp⟩
      refine ⟨hm, ?_⟩
      rintro ⟨hc, hb⟩
      simp [hc, hb] at hp
    · rintro ⟨hm, hp⟩
      refine ⟨hm, ?_⟩
      by_cases hc : e.chainId = chainId
      · have hb : ¬ max (config.startBlock - 1) (lp - config.reorgBacktrack) < e.blockNumber :=
          fun hb => hp ⟨hc, hb⟩
        simp [hc, hb]
      · simp [hc]
  · intro hlt
    show (if _ < config.startBlock then deleteSyncState db.syncStates chainId
      else setSyncState db.syncStates chainId _ "").find? _ = none
    rw [if_pos hlt]
    exact find_deleteSyncState_none db.syncStates chainId hwf
  · intro hge
    show (if _ < config.startBlock then deleteSyncState db.syncStates chainId
      else setSyncState db.syncStates chainId _ "").find? _ = some _
    rw [if_neg (by omega)]
    exact find_setSyncState db.syncStates chainId _ "" row hrow

/-- Witness for C1 at the spec's numbers: `lastProcessedBlock = 150`,
`reorgBacktrack = 10`, `startBlock = 100` give rollback target `140`
and checkpoint `{140, ""}`. -/
theorem handleReorg_rollback_witness :
    (handleReorg 137 150 reorgConfig reorgDb).1 = 140 ∧
    (handleReorg 137 150 reorgConfig reorgDb).2.syncStates.find?
        (fun s => s.chainId == 137) =
      some { chainId := 137, lastProcessedBlock := 140, lastProcessedBlockHash := "" } ∧
    ({ sampleParsed with blockNumber := 140, txHash := "0xtx2" } ∈
        (handleReorg 137 150 reorgConfig reorgDb).2.events ↔
      ({ sampleParsed with blockNumber := 140, txHash := "0xtx2" } ∈ reorgDb.events ∧
        ¬(ParsedFeeCollectedEvent.chainId
            { sampleParsed with blockNumber := 140, txHash := "0xtx2" } = 137 ∧
          max (reorgConfig.startBlock - 1) (150 - reorgConfig.reorgBacktrack) <
            ParsedFeeCollectedEvent.blockNumber
              { sampleParsed with blockNumber := 140, txHash := "0xtx2" }))) := by
  have h := handleReorg_rollback 137 150 reorgConfig reorgDb
    { chainId := 137, lastProcessedBlock := 150, lastProcessedBlockHash := "0xold" }
    (by constructor
        · intro b hb; cases hb
        · constructor)
    (by decide)
  refine ⟨by simpa using h.1, ?_, ?_⟩
  · have h4 := h.2.2.2 (by decide)
    simpa using h4
  · exact h.2.1 _

/-- **C7** (amended): a cycle whose computed `safeBlock` is at most the
loaded `lastProcessedBlock` *and in which no reorg is confirmed* (the
stored hash is empty/absent or matches the chain) never runs the batch
loop body: it performs zero `queryFeesCollected` calls and returns the
store unchanged.  (When a reorg *is* confirmed, the rollback can drop
`lastProcessedBlock` below `safeBlock` and the loop does run — see the
counterexample.) -/
theorem noop_cycle (client : ClientModel) (config : SyncConfig) (db : DB)
    (hsafe : client.latestBlockNumber - config.confirmations ≤
      (loadSyncState db config.chainId config.startBlock).1)
    (hnoreorg : detectReorg client (loadSyncState db config.chainId config.startBlock).1
      (loadSyncState db config.chainId config.startBlock).2 = .ok false) :
    syncCycle client config db = .ok (db, []) := by
  have hnone : computeBatchRange (loadSyncState db config.chainId config.startBlock).1
      (client.latestBlockNumber - config.confirmations) config.batchSize = none := by
    unfold computeBatchRange
    rw [if_pos (by omega)]
  simp only [syncCycle, hnoreorg]
  simp only [if_neg Bool.false_ne_true]
  rw [Int.toNat_of_nonpos (by omega)]
  simp only [syncLoopGo, hnone]

/-- Witness for the amended C7: checkpoint at 150 with a matching
stored hash, chain height 155, 5 confirmations (`safeBlock = 150`). -/
theorem noop_cycle_witness :
    syncCycle
      { latestBlockNumber := 155
        blocks := fun n => some { number := n, hash := "0xold", timestamp := 1700000000 }
        logsInRange := fun _ _ => [] }
      reorgConfig
      { syncStates := [{ chainId := 137, lastProcessedBlock := 150,
                         lastProcessedBlockHash := "0xold" }], events := [] } =
    .ok ({ syncStates := [{ chainId := 137, lastProcessedBlock := 150,
                            lastProcessedBlockHash := "0xold" }], events := [] }, []) :=
  noop_cycle _ reorgConfig _ (by decide) (by decide)

/-- Counterexample to C7 as stated: `safeBlock = 150 ≤ 150 =` loaded
`lastProcessedBlock`, but the stored hash `"0xold"` no longer matches,
so the cycle rolls back to 140 and then *does* query `[141, 150]` and
rewrite the checkpoint. -/
theorem noop_cycle_counterexample :
    reorgClient.latestBlockNumber - reorgConfig.confirmations ≤
      (loadSyncState reorgDb reorgConfig.chainId reorgConfig.startBlock).1 ∧
    syncCycle reorgClient reorgConfig reorgDb =
      .ok ({ syncStates := [{ chainId := 137, lastProcessedBlock := 150,
                              lastProcessedBlockHash := "0xnew" }]
             events := [{ sampleParsed with blockNumber := 140, txHash := "0xtx2" }] },
           [(141, 150)]) ∧
    ¬ syncCycle reorgClient reorgConfig reorgDb = .ok (reorgDb, []) := by
  refine ⟨by decide, by decide, by decide⟩

/-- **C5**: `acquire(chainId, ownerId, ttl)` grants exactly when no lock
row exists for the chain, or the existing row's owner is `ownerId`, or
the existing row has expired (`expiresAt ≤ now`, the `$lte` of the
source); on refusal the store is untouched; on grant the chain's row is
owned by `ownerId` with expiry `now + ttl`. -/
theorem acquireChainLock_spec (store : LockStore) (chainId : Int) (ownerId : String)
    (ttlMs now : Int) (hwf : lockStoreWF store) :
    ((acquireChainLock store chainId ownerId ttlMs now).1 = true ↔
      (store chainId = none ∨
        ∃ row, store chainId = some row ∧ (row.ownerId = ownerId ∨ row.expiresAt ≤ now))) ∧
    ((acquireChainLock store chainId ownerId ttlMs now).1 = false →
      (acquireChainLock store chainId ownerId ttlMs now).2 = store) ∧
    ((acquireChainLock store chainId ownerId ttlMs now).1 = true →
      (acquireChainLock store chainId ownerId ttlMs now).2 chainId =
        some { chainId := chainId, ownerId := ownerId, expiresAt := now + ttlMs }) := by
  unfold acquireChainLock
  cases hrow : store chainId with
  | none =>
    dsimp only
    refine ⟨⟨fun _ => Or.inl rfl, fun _ => rfl⟩, fun hf => by simp at hf, fun _ => by simp⟩
  | some row =>
    dsimp only
    by_cases hcond : row.ownerId = ownerId ∨ row.expiresAt ≤ now
    · rw [if_pos hcond]
      refine ⟨⟨fun _ => Or.inr ⟨row, rfl, hcond⟩, fun _ => rfl⟩, fun hf => by simp at hf,
        fun _ => ?_⟩
      have hc : row.chainId = chainId := hwf chainId row hrow
      simp [hc]
    · rw [if_neg hcond]
      refine ⟨⟨fun hf => by simp at hf, fun h => ?_⟩, fun _ => rfl, fun hf => by simp at hf⟩
      rcases h with h | ⟨row2, hrow2, hcond2⟩
      · simp at h
      · cases hrow2
        exact absurd hcond2 hcond

theorem lockStoreSample_wf : lockStoreWF lockStoreSample := by
  intro c r h
  unfold lockStoreSample at h
  by_cases hc : c = 137
  · subst hc
    rw [if_pos rfl] at h
    cases h
    rfl
  · rw [if_neg hc] at h
    cases h

/-- Witness for C5: at `now = 2000` the lock from `lockStoreSample` has
expired, so `"workerB"` takes it over with expiry `2500`. -/
theorem acquireChainLock_spec_witness :
    (acquireChainLock lockStoreSample 137 "workerB" 500 2000).1 = true ∧
    (acquireChainLock lockStoreSample 137 "workerB" 500 2000).2 137 =
      some { chainId := 137, ownerId := "workerB", expiresAt := 2500 } :=
  ⟨by decide,
    (acquireChainLock_spec lockStoreSample 137 "workerB" 500 2000 lockStoreSample_wf).2.2
      (by decide)⟩

theorem withRetryGo_all_fail (op : Nat → Except E A) (err : Nat → E) (m d : Nat)
    (hfail : ∀ k, 1 ≤ k → k ≤ m → op k = .error (err k)) :
    ∀ (n a : Nat) (le : Option E) (ds : List Nat), 1 ≤ a → a ≤ m → m - a = n →
      withRetryGo op m d a le ds =
        (.error (some (err m)), m,
          ds ++ (List.range (m - a)).map (fun i => d * 2 ^ (a - 1 + i))) := by
  intro n
  induction n with
  | zero =>
    intro a le ds h1 ham hn
    have haem : a = m := by omega
    subst haem
    rw [withRetryGo]
    rw [dif_pos (by omega)]
    rw [hfail a h1 (by omega)]
    simp only [if_neg (show ¬ a < a by omega)]
    simp
  | succ n ih =>
    intro a le ds h1 ham hn
    have halt : a < m := by omega
    rw [withRetryGo]
    rw [dif_pos (by omega)]
    rw [hfail a h1 (by omega)]
    simp only [if_pos halt]
    rw [ih (a + 1) (some (err a)) (ds ++ [d * 2 ^ (a - 1)]) (by omega) (by omega) (by omega)]
    have hma : m - a = (m - (a + 1)) + 1 := by omega
    have hlist : List.map (fun i => d * 2 ^ (a + 1 - 1 + i)) (List.range (m - (a + 1)))
        = List.map ((fun i => d * 2 ^ (a - 1 + i)) ∘ Nat.succ) (List.range (m - (a + 1))) := by
      apply List.map_congr_left
      intro i _
      simp only [Function.comp_apply]
      have hexp : a + 1 - 1 + i = a - 1 + i.succ := by omega
      rw [hexp]
    rw [hma, List.range_succ_eq_map, List.map_cons, List.map_map, List.append_assoc,
      List.singleton_append, ← hlist]
    simp

theorem withRetryGo_succeeds (op : Nat → Except E A) (err : Nat → E) (m d k : Nat) (v : A)
    (hk1 : 1 ≤ k) (hkm : k ≤ m) (hok : op k = .ok v)
    (hfail : ∀ j, 1 ≤ j → j < k → op j = .error (err j)) :
    ∀ (n a : Nat) (le : Option E) (ds : List Nat), 1 ≤ a → a ≤ k → k - a = n →
      withRetryGo op m d a le ds =
        (.ok v, k, ds ++ (List.range (k - a)).map (fun i => d * 2 ^ (a - 1 + i))) := by
  intro n
  induction n with
  | zero =>
    intro a le ds h1 hak hn
    have haek : a = k := by omega
    subst haek
    rw [withRetryGo]
    rw [dif_pos (by omega)]
    rw [hok]
    simp
  | succ n ih =>
    intro a le ds h1 hak hn
    have halt : a < k := by omega
    rw [withRetryGo]
    rw [dif_pos (by omega)]
    rw [hfail a h1 halt]
    simp only [if_pos (show a < m by omega)]
    rw [ih (a + 1) (some (err a)) (ds ++ [d * 2 ^ (a - 1)]) (by omega) (by omega) (by omega)]
    have hka : k - a = (k - (a + 1)) + 1 := by omega
    have hlist : List.map (fun i => d * 2 ^ (a + 1 - 1 + i)) (List.range (k - (a + 1)))
        = List.map ((fun i => d * 2 ^ (a - 1 + i)) ∘ Nat.succ) (List.range (k - (a + 1))) := by
      apply List.map_congr_left
      intro i _
      simp only [Function.comp_apply]
      have hexp : a + 1 - 1 + i = a - 1 + i.succ := by omega
      rw [hexp]
    rw [hka, List.range_succ_eq_map, List.map_cons, List.map_map, List.append_assoc,
      List.singleton_append, ← hlist]
    simp

/-- **C3**: with its defaults being `maxAttempts = 3` and
`initialDelayMs = 5000`, `withRetry` invokes an always-failing
operation exactly `maxAttempts` times, sleeping
`initialDelay * 2^(attempt-1)` between consecutive attempts, and
finally re-raises the error of the last attempt unmodified; if the k-th
attempt succeeds first, its value is returned after exactly `k`
invocations (no further attempts) and `k - 1` backoff sleeps. -/
theorem withRetry_spec (op : Nat → Except E A) (err : Nat → E) (m d : Nat) (hm : 1 ≤ m) :
    defaultMaxAttempts = 3 ∧ defaultInitialDelayMs = 5000 ∧
    ((∀ k, 1 ≤ k → k ≤ m → op k = .error (err k)) →
      withRetry op m d =
        (.error (some (err m)), m, (List.range (m - 1)).map (fun i => d * 2 ^ i))) ∧
    (∀ k v, 1 ≤ k → k ≤ m → op k = .ok v →
      (∀ j, 1 ≤ j → j < k → op j = .error (err j)) →
      withRetry op m d =
        (.ok v, k, (List.range (k - 1)).map (fun i => d * 2 ^ i))) := by
  refine ⟨rfl, rfl, ?_, ?_⟩
  · intro hfail
    unfold withRetry
    rw [withRetryGo_all_fail op err m d hfail (m - 1) 1 none [] (by omega) (by omega)
      (by omega)]
    simp
  · intro k v hk1 hkm hok hfail
    unfold withRetry
    rw [withRetryGo_succeeds op err m d k v hk1 hkm hok hfail (k - 1) 1 none [] (by omega)
      (by omega) (by omega)]
    simp

/-- Witness for C3: an always-failing operation under the defaults
(3 attempts, 5000ms initial delay) and an operation succeeding on its
second attempt. -/
theorem withRetry_spec_witness :
    withRetry (fun _ => (.error "boom" : Except String Nat)) 3 5000 =
      (.error (some "boom"), 3, [5000, 10000]) ∧
    withRetry (fun k => if k = 2 then (.ok 7 : Except String Nat) else .error "boom") 3 5000 =
      (.ok 7, 2, [5000]) := by
  constructor
  · have h := (withRetry_spec (fun _ => (.error "boom" : Except String Nat))
      (fun _ => "boom") 3 5000 (by decide)).2.2.1 (fun _ _ _ => rfl)
    exact h.trans (by decide)
  · have h := (withRetry_spec (fun k => if k = 2 then (.ok 7 : Except String Nat)
        else .error "boom") (fun _ => "boom") 3 5000 (by decide)).2.2.2 2 7
      (by decide) (by decide) (by decide)
      (fun j hj1 hj2 => by
        have hj : j = 1 := by omega
        subst hj
        rfl)
    exact h.trans (by decide)

/-- **C8**: the query service clamps the requested page size to
`[1, 200]` before querying the repository — the single repository call
carries `limit = min(max(1, limit), 200)`, so values above 200 become
200, values below 1 become 1, in-range values pass through — and an
omitted limit defaults to `DEFAULT_LIMIT = 50`. -/
theorem limit_clamping (repo : FindByIntegratorOptions → List FeeEventRow)
    (parse : String → Option Json) (encode : FeesCursor → String)
    (integrator : String) (chainId : Option Int) (limit : Int) :
    (findByIntegrator repo parse encode integrator chainId none limit).2 =
      [{ integrator := integrator, chainId := chainId, cursor := none,
         limit := min (max 1 limit) MAX_LIMIT }] ∧
    (1 : Int) ≤ min (max 1 limit) MAX_LIMIT ∧
    min (max 1 limit) MAX_LIMIT ≤ 200 ∧
    (MAX_LIMIT < limit → min (max 1 limit) MAX_LIMIT = 200) ∧
    (limit < 1 → min (max 1 limit) MAX_LIMIT = 1) ∧
    (1 ≤ limit → limit ≤ MAX_LIMIT → min (max 1 limit) MAX_LIMIT = limit) ∧
    DEFAULT_LIMIT = 50 ∧
    (findByIntegratorDefault repo parse encode integrator chainId none).2 =
      [{ integrator := integrator, chainId := chainId, cursor := none, limit := 50 }] := by
  have hmm : ∀ x : Int, min (max 1 x) MAX_LIMIT = min (max 1 x) 200 := fun _ => rfl
  refine ⟨rfl, ?_, ?_, ?_, ?_, ?_, rfl, rfl⟩
  · rw [hmm]; omega
  · rw [hmm]; omega
  · intro h; rw [hmm]; unfold MAX_LIMIT at h; omega
  · intro h; rw [hmm]; omega
  · intro h1 h2; rw [hmm]; unfold MAX_LIMIT at h2; omega

/-- Witness for C8: a request for 10000 rows is clamped to 200, one for
0 rows to 1. -/
theorem limit_clamping_witness :
    (findByIntegrator (fun _ => []) (fun _ => none) (fun _ => "") "0xabc" none none 10000).2 =
      [{ integrator := "0xabc", chainId := none, cursor := none, limit := 200 }] ∧
    (findByIntegrator (fun _ => []) (fun _ => none) (fun _ => "") "0xabc" none none 0).2 =
      [{ integrator := "0xabc", chainId := none, cursor := none, limit := 1 }] := by
  constructor
  · have h := (limit_clamping (fun _ => []) (fun _ => none) (fun _ => "") "0xabc"
      none 10000).1
    exact h.trans (by decide)
  · have h := (limit_clamping (fun _ => []) (fun _ => none) (fun _ => "") "0xabc"
      none 0).1
    exact h.trans (by decide)

/-- **C10** (amended): for every *non-empty* cursor string that does
not decode — base64+JSON parse failure or a payload that is not an
object with integer `blockNumber`, integer `logIndex` and a
24-character hex `id` — `findByIntegrator` fails with a
`FeeServiceError` of status 400 and code `INVALID_CURSOR` and never
invokes the repository.  (The empty cursor string is JS-falsy and is
skipped rather than rejected — see the counterexample.) -/
theorem invalid_cursor_rejected (repo : FindByIntegratorOptions → List FeeEventRow)
    (parse : String → Option Json) (encode : FeesCursor → String)
    (integrator : String) (chainId : Option Int) (limit : Int) (c : String)
    (hne : c ≠ "") (hdec : decodeCursor parse c = none) :
    findByIntegrator repo parse encode integrator chainId (some c) limit =
      (.error { statusCode := 400, code := "INVALID_CURSOR", message := "Invalid cursor" },
       []) := by
  simp only [findByIntegrator, if_neg hne, hdec]

/-- Witness for the amended C10 on a non-empty undecodable cursor. -/
theorem invalid_cursor_rejected_witness :
    findByIntegrator (fun _ => []) (fun _ => none) (fun _ => "") "0xabc" none
      (some "not-base64") 10 =
      (.error { statusCode := 400, code := "INVALID_CURSOR", message := "Invalid cursor" },
       []) :=
  invalid_cursor_rejected (fun _ => []) (fun _ => none) (fun _ => "") "0xabc" none 10
    "not-base64" (by decide) (by decide)

/-- Counterexample to C10 as stated: the empty string does not decode,
yet `if (cursor)` treats it as absent — the call succeeds and the
repository *is* queried. -/
theorem invalid_cursor_counterexample :
    decodeCursor (fun _ => none) "" = none ∧
    findByIntegrator (fun _ => []) (fun _ => none) (fun _ => "") "0xabc" none (some "") 10 =
      (.ok { data := [], cursor := none },
       [{ integrator := "0xabc", chainId := none, cursor := none, limit := 10 }]) ∧
    ¬ findByIntegrator (fun _ => []) (fun _ => none) (fun _ => "") "0xabc" none (some "") 10 =
      (.error { statusCode := 400, code := "INVALID_CURSOR", message := "Invalid cursor" },
       []) := by
  refine ⟨rfl, by decide, by decide⟩

end FeeCollector
